import Mathlib

/-!
Verification development for the `timespec` Go package: a recursive-descent
parser for POSIX at(1) timespecs and a resolver turning the parsed value plus
a reference instant into an absolute UTC timestamp.

The embedding mirrors the Go source of `src/timespec.go` (the package with the
exported `Parse`/`Resolve` API).  Bytes are `Nat` (ASCII); the input buffer is
the `buffer` struct of the source: an immutable byte list with a position,
where reading at end of input yields byte 0 with an EOF flag and does not
advance, and `UnreadByte` decrements the position when it is positive.  All
parser functions return their (possibly mutated) `Timespec` and buffer even on
error, modelling Go's mutation through pointers.
-/

/-- A byte of the input, 0..255 (the source reads `byte`s; end of input is
reported as byte 0 with `io.EOF`). -/
abbrev GoByte := Nat

/-- `isdigit` from the source: `r >= '0' && r <= '9'`. -/
def isdigit (r : GoByte) : Bool := 48 ≤ r ∧ r ≤ 57

/-- `isspace` from the source: `r == ' ' || r == '\n' || r == '\t'`. -/
def isspace (r : GoByte) : Bool := r = 32 ∨ r = 10 ∨ r = 9

/-- `nospace` from the source: `!isspace(r)`. -/
def nospace (r : GoByte) : Bool := !isspace r

/-- The `buffer` struct of the source: the string being parsed and the byte
position. -/
structure buffer where
  src : List GoByte
  pos : Nat
deriving DecidableEq, Repr

/-- `buffer.ReadByte`: at end of input returns byte 0 with the EOF flag set
and does not move `pos`; otherwise returns the byte at `pos` and advances. -/
def readByte (b : buffer) : GoByte × Bool × buffer :=
  if h : b.pos < b.src.length then
    (b.src.get ⟨b.pos, h⟩, false, ⟨b.src, b.pos + 1⟩)
  else
    (0, true, b)

/-- `buffer.UnreadByte`: decrements `pos` when it is positive (a no-op at
position 0). -/
def unreadByte (b : buffer) : buffer := ⟨b.src, b.pos - 1⟩

/-- The loop of `skip`, expressed over the bytes still ahead of the cursor:
each iteration reads one byte and stops on the first byte failing the class
(that byte was consumed by its read) or on a failed read at end of input
(which consumes nothing and yields byte 0).  Returns how many bytes the loop
consumed and the byte that stopped it. -/
def skipRun (cl : GoByte → Bool) : List GoByte → Nat × GoByte
  | [] => (0, 0)
  | x :: xs =>
    if cl x then
      let r := skipRun cl xs
      (r.1 + 1, r.2)
    else (1, x)

/-- `skip` from the source: reads one byte; if it is 0 returns at once
(without pushback); otherwise, while the byte matches the class and the read
succeeded, reads on; finally pushes back one byte and returns the byte that
stopped the loop. -/
def skip (b : buffer) (cl : GoByte → Bool) : GoByte × buffer :=
  let (c, e, b1) := readByte b
  if c = 0 then (c, b1)
  else if cl c = true ∧ e = false then
    let r := skipRun cl (b1.src.drop b1.pos)
    (r.2, unreadByte ⟨b1.src, b1.pos + r.1⟩)
  else (c, unreadByte b1)

/-- `peek` from the source: one byte of lookahead, implemented as a read
followed by `UnreadByte` (so peeking at end of input moves `pos` back by
one). -/
def peek (b : buffer) : GoByte × buffer :=
  let (c, _, b1) := readByte b
  (c, unreadByte b1)

/-- `expect` from the source: consumes and returns one byte when it matches
the class, otherwise pushes it back and reports failure. -/
def expect (b : buffer) (cl : GoByte → Bool) : GoByte × Bool × buffer :=
  let (c, _, b1) := readByte b
  if cl c then (c, true, b1) else (c, false, unreadByte b1)

/-- `expectBytes` from the source: consumes bytes comparing against a literal;
on the first mismatch pushes that byte back and returns the bytes consumed so
far (mismatch included) with failure; on full success returns the empty
list. -/
def expectBytes (b : buffer) (s : List GoByte) : List GoByte × Bool × buffer :=
  match s with
  | [] => ([], true, b)
  | e :: rest =>
    let (c, _, b1) := readByte b
    if c = e then
      match expectBytes b1 rest with
      | (buf, false, b2) => (c :: buf, false, b2)
      | (_, true, b2) => ([], true, b2)
    else ([c], false, unreadByte b1)

/-- The loop of `any`, expressed over the bytes still ahead of the cursor:
accumulates bytes of the class; stops at the first byte failing the class
(consumed by its read) or at a failed read at end of input (which consumes
nothing).  Returns the accumulated bytes and how many bytes the loop
consumed. -/
def anyRun (cl : GoByte → Bool) : List GoByte → List GoByte × Nat
  | [] => ([], 0)
  | x :: xs =>
    if cl x then
      let r := anyRun cl xs
      (x :: r.1, r.2 + 1)
    else ([], 1)

/-- `any` from the source: a maximal run of bytes of the class.  When the
first read already fails it returns without pushback; otherwise the byte that
stopped the loop is pushed back (so a run ending exactly at end of input
pushes back its own last byte: the read that failed never advanced). -/
def any (b : buffer) (cl : GoByte → Bool) : List GoByte × buffer :=
  let (c, e, b1) := readByte b
  if e then ([], b1)
  else if cl c then
    let r := anyRun cl (b1.src.drop b1.pos)
    (c :: r.1, unreadByte ⟨b1.src, b1.pos + r.2⟩)
  else ([], unreadByte b1)

/-- `expectN` from the source: exactly `n` bytes of the class.  On success the
returned byte is 0 — the source's loop variable shadows the returned `c`, so
the outer `c` keeps its zero value. -/
def expectN (n : Nat) (b : buffer) (cl : GoByte → Bool) (acc : List GoByte) :
    GoByte × Bool × List GoByte × buffer :=
  match n with
  | 0 => (0, true, acc, b)
  | m + 1 =>
    let (c, ok, b1) := expect b cl
    if ok then expectN m b1 cl (acc ++ [c])
    else (c, false, acc, b1)

/-- `strconv.Atoi` / `strconv.ParseInt(_, 10, 0)` restricted to how the parser
calls them: an unsigned decimal digit string; the empty string or a non-digit
byte is an error, as is a value beyond the 64-bit `int` range. -/
def atoi (buf : List GoByte) : Option Int :=
  if buf = [] ∨ buf.any (fun c => !isdigit c) then none
  else
    let v : Nat := buf.foldl (fun a c => a * 10 + (c - 48)) 0
    if v ≤ 9223372036854775807 then some (Int.ofNat v) else none

/-- The bytes of an ASCII string literal. -/
def strB (s : String) : List GoByte := s.data.map Char.toNat

/-- Does `p` occur at the head of `s`? (used to model unanchored regexp
matching). -/
def leadsWith : List GoByte → List GoByte → Bool
  | [], _ => true
  | _ :: _, [] => false
  | a :: p, c :: s => a = c && leadsWith p s

/-- Does `p` occur as a contiguous subsequence of `s`?  Each name-table entry
of the source is a Go regexp of the shape `Stem(rest)?` (for example
`Jan(uary)?`, `minutes?`) matched with `regexp.Match`, which is unanchored:
such a pattern matches a byte string exactly when the string contains the
mandatory stem `Stem` as a contiguous substring (the optional group may be
empty, and any match of `Stem rest` contains `Stem`).  So table matching is
embedded as substring containment of the stems. -/
def containsSeq (p : List GoByte) : List GoByte → Bool
  | [] => leadsWith p []
  | c :: t => leadsWith p (c :: t) || containsSeq p t

/-- The mandatory stems of `monthNames` (`Jan(uary)?` … `Dec(ember)?`). -/
def monthNames : List (List GoByte) :=
  [strB "Jan", strB "Feb", strB "Mar", strB "Apr", strB "May", strB "Jun",
   strB "Jul", strB "Aug", strB "Sep", strB "Oct", strB "Nov", strB "Dec"]

/-- The mandatory stems of `dayNames` (`Mon(day)?` … `Sun(day)?`). -/
def dayNames : List (List GoByte) :=
  [strB "Mon", strB "Tue", strB "Wed", strB "Thu", strB "Fri", strB "Sat",
   strB "Sun"]

/-- The mandatory stems of `periodNames` (`minutes?` … `years?`). -/
def periodNames : List (List GoByte) :=
  [strB "minute", strB "hour", strB "day", strB "week", strB "month",
   strB "year"]

/-- The loop of `findInRegexpList`, carrying the index of the head of the
remaining list. -/
def findInRegexpListAux (list : List (List GoByte)) (buf : List GoByte)
    (i : Int) : Int :=
  match list with
  | [] => -1
  | re :: rest =>
    if containsSeq re buf then i else findInRegexpListAux rest buf (i + 1)

/-- `findInRegexpList` from the source: the first index whose pattern matches
`buf`, or -1. -/
def findInRegexpList (list : List (List GoByte)) (buf : List GoByte) : Int :=
  findInRegexpListAux list buf 0

/-- `findMonth` from the source: 1-based month index, or -1. -/
def findMonth (buf : List GoByte) : Int :=
  let index := findInRegexpList monthNames buf
  if index ≠ -1 then index + 1 else -1

/-- `findDayOfWeek` from the source: 0-based weekday index, or -1. -/
def findDayOfWeek (buf : List GoByte) : Int :=
  findInRegexpList dayNames buf

/-- `findPeriod` from the source. -/
def findPeriod (buf : List GoByte) : Int :=
  findInRegexpList periodNames buf

/-- `incrementType` from the source, with its six declared constants. -/
inductive incrementType where
  | incrementMinutes
  | incrementHours
  | incrementDays
  | incrementWeeks
  | incrementMonths
  | incrementYears
deriving DecidableEq, Repr

/-- The conversion `incrementType(period)` applied to a period-table index:
`findPeriod` yields 0..5 when it is not -1, and those values are the six
constants in declaration order. -/
def unitOfIdx (i : Int) : incrementType :=
  if i = 0 then .incrementMinutes
  else if i = 1 then .incrementHours
  else if i = 2 then .incrementDays
  else if i = 3 then .incrementWeeks
  else if i = 4 then .incrementMonths
  else .incrementYears

/-- The `Timespec` struct of the source.  `month` is Go's `time.Month` (an
integer); all numeric fields are Go `int`s, modelled as `Int`. -/
structure Timespec where
  month : Int := 0
  day : Int := 0
  year : Int := 0
  hours : Int := 0
  minutes : Int := 0
  seconds : Int := 0
  isNow : Bool := false
  isTomorrow : Bool := false
  increments : Int := 0
  unit : incrementType := .incrementMinutes
deriving DecidableEq, Repr

/-- The parse errors of the source, one constructor per `fmt.Errorf` site,
with the formatted payloads carried as data. -/
inductive PErr where
  | eofTimespec
  | expectedNow (actual : List GoByte)
  | expectedNext (actual : List GoByte)
  | incrInvalidCount
  | expectedPlus (c : GoByte)
  | invalidPeriod (buf : List GoByte)
  | eofDate
  | invalidMonthName (buf : List GoByte)
  | monthExpected2Digits (buf : List GoByte)
  | invalidDayNumber (buf : List GoByte)
  | invalidYearFormat (buf : List GoByte)
  | clockInvalidNumber (buf : List GoByte)
  | invalidHours (h : Int)
  | clockEOF
  | minuteExpected (c : GoByte)
  | minuteExpectedDigit (c : GoByte)
  | minuteParse
  | invalidMinutes (m : Int)
  | invalidTimezone (buf : List GoByte)
  | ampmEOF
  | ampmExpectedM (c : GoByte)
  | timeUnexpectedChar (c : GoByte)
  | noonExpected (s : List GoByte)
  | midnightExpected (s : List GoByte)
deriving DecidableEq, Repr

/-- Is this the `parseTimeZone` "invalid timezone" error? -/
def PErr.isTimezone : PErr → Bool
  | .invalidTimezone _ => true
  | _ => false

/-- The result triple of a parser function: the error (if any), the spec as
mutated so far, and the buffer as consumed so far. -/
abbrev PRes := Option PErr × Timespec × buffer

/-- `parseYear` from the source: skips whitespace, attempts exactly four
digits but ignores whether all four were present, and parses whatever digits
were collected; only an empty digit string fails. -/
def parseYear (b : buffer) (spec : Timespec) : PRes :=
  let (_, b1) := skip b isspace
  let (_, _, buf, b2) := expectN 4 b1 isdigit []
  match atoi buf with
  | none => (some (.invalidYearFormat buf), spec, b2)
  | some year => (none, {spec with year := year}, b2)

/-- `parseMonth` from the source: two digits of day-of-month, then an optional
comma introducing the year. -/
def parseMonth (b : buffer) (spec : Timespec) : PRes :=
  let (_, b1) := skip b isspace
  let r := expectN 2 b1 isdigit []
  if r.2.1 = false then (some (.monthExpected2Digits r.2.2.1), spec, r.2.2.2)
  else
    match atoi r.2.2.1 with
    | none => (some (.invalidDayNumber r.2.2.1), spec, r.2.2.2)
    | some day =>
      let spec1 := {spec with day := day}
      let (_, b3) := skip r.2.2.2 isspace
      let (c, _, b4) := readByte b3
      if c = 44 then parseYear b4 spec1
      else (none, spec1, unreadByte b4)

/-- `parseDate` from the source. -/
def parseDate (b : buffer) (spec : Timespec) : PRes :=
  let (c, b1) := peek b
  if c = 0 then (some .eofDate, spec, b1)
  else
    let (c2, b2) := skip b1 isspace
    if c2 = 43 ∨ c2 = 110 then (none, spec, b2)
    else
      let (buf, b3) := any b2 nospace
      if buf = strB "today" then
        (none, {spec with year := 0, month := 0, day := 0}, b3)
      else if buf = strB "tomorrow" then
        (none, {spec with isTomorrow := true}, b3)
      else
        let day := findDayOfWeek buf
        if day ≠ -1 then (none, {spec with day := day}, b3)
        else
          let month := findMonth buf
          if month = -1 then (some (.invalidMonthName buf), spec, b3)
          else parseMonth b3 {spec with month := month}

/-- The period-parsing tail of `parseincrement`: skip whitespace, take a
maximal non-space token and look it up in the period table. -/
def parseincrementPeriod (b : buffer) (spec : Timespec) : PRes :=
  let (_, b1) := skip b isspace
  let (buf, b2) := any b1 nospace
  let period := findPeriod buf
  if period = -1 then (some (.invalidPeriod buf), spec, b2)
  else (none, {spec with unit := unitOfIdx period}, b2)

/-- `parseincrement` from the source: `next <period>` or `+ <count> <period>`;
end of input means "no increment" and is a success. -/
def parseincrement (b : buffer) (spec : Timespec) : PRes :=
  let (_, b1) := skip b isspace
  let (c, _, b2) := readByte b1
  if c = 0 then (none, spec, b2)
  else if c = 110 then
    match expectBytes (unreadByte b2) (strB "next") with
    | (actual, false, b3) => (some (.expectedNext actual), spec, b3)
    | (_, true, b3) => parseincrementPeriod b3 {spec with increments := 1}
  else if c = 43 then
    let (_, b3) := skip b2 isspace
    let (buf, b4) := any b3 isdigit
    match atoi buf with
    | none => (some .incrInvalidCount, spec, b4)
    | some count => parseincrementPeriod b4 {spec with increments := count}
  else (some (.expectedPlus c), spec, b2)

/-- ASCII upper-casing of one byte (`strings.ToUpper` on the parser's ASCII
tokens). -/
def toUpperByte (c : GoByte) : GoByte :=
  if 97 ≤ c ∧ c ≤ 122 then c - 32 else c

/-- ASCII lower-casing of one byte (`strings.ToLower` on the parser's ASCII
tokens). -/
def toLowerByte (c : GoByte) : GoByte :=
  if 65 ≤ c ∧ c ≤ 90 then c + 32 else c

/-- `parseTimeZone` from the source: only "UTC" (case-insensitive) is valid;
a token whose first non-space byte is not `u`/`U` is left unconsumed with no
failure. -/
def parseTimeZone (b : buffer) (spec : Timespec) : PRes :=
  let (c, b1) := skip b isspace
  if c ≠ 117 ∧ c ≠ 85 then (none, spec, b1)
  else
    let (_, _, buf, b2) := expectN 3 b1 nospace []
    let timezone := buf.map toUpperByte
    if timezone ≠ strB "UTC" then (some (.invalidTimezone buf), spec, b2)
    else (none, spec, b2)

/-- `parseAmPm` from the source: a first letter already checked by the caller,
then `m`/`M`; "pm" (case-insensitive) converts the hour by
`hours = hours % 12 + 12` (Go's truncated `%`). -/
def parseAmPm (b : buffer) (spec : Timespec) : PRes :=
  let (c1, _, b1) := readByte b
  let (c2, e2, b2) := readByte b1
  if e2 then (some .ampmEOF, spec, b2)
  else if c2 ≠ 109 ∧ c2 ≠ 77 then (some (.ampmExpectedM c2), spec, b2)
  else if [c1, c2].map toLowerByte = strB "pm" then
    (none, {spec with hours := Int.tmod spec.hours 12 + 12}, b2)
  else (none, spec, b2)

/-- `parseNoon` from the source: the exact literal "noon" sets hour 12. -/
def parseNoon (b : buffer) (spec : Timespec) : PRes :=
  match expectBytes b (strB "noon") with
  | (s, false, b1) => (some (.noonExpected s), spec, b1)
  | (_, true, b1) => (none, {spec with hours := 12}, b1)

/-- `parseMidnight` from the source: the exact literal "midnight" leaves
hours and minutes at 0. -/
def parseMidnight (b : buffer) (spec : Timespec) : PRes :=
  match expectBytes b (strB "midnight") with
  | (s, false, b1) => (some (.midnightExpected s), spec, b1)
  | (_, true, b1) => (none, spec, b1)

/-- `parseMinute` from the source: an optional `:` then exactly two digits,
value below 60. -/
def parseMinute (b : buffer) (spec : Timespec) : PRes :=
  let (c, _, b1) := readByte b
  if c = 0 then (none, spec, b1)
  else if c ≠ 58 ∧ ¬(isdigit c) then (some (.minuteExpected c), spec, b1)
  else
    let b2 := if isdigit c then unreadByte b1 else b1
    let r := expectN 2 b2 isdigit []
    if r.2.1 = false then (some (.minuteExpectedDigit r.1), spec, r.2.2.2)
    else
      match atoi r.2.2.1 with
      | none => (some .minuteParse, spec, r.2.2.2)
      | some minutes =>
        if minutes ≥ 60 then (some (.invalidMinutes minutes), spec, r.2.2.2)
        else (none, {spec with minutes := minutes}, r.2.2.2)

/-- The tail of `parseClock` after the minute step: skip whitespace, parse an
am/pm suffix when the next byte is one of `aApP` (propagating its error),
then call `parseTimeZone` and discard its result — error included. -/
def parseClockTail (b : buffer) (spec : Timespec) : PRes :=
  let (c4, b6) := skip b isspace
  match (if c4 ≠ 0 ∧ (c4 = 97 ∨ c4 = 65 ∨ c4 = 112 ∨ c4 = 80)
         then parseAmPm b6 spec else (none, spec, b6)) with
  | (some e, sp2, b7) => (some e, sp2, b7)
  | (none, sp2, b7) =>
    let (_, sp3, b8) := parseTimeZone b7 sp2
    (none, sp3, b8)

/-- The middle of `parseClock` after the hour has been stored: peeking end of
input is an error; a digit or `:` starts the minute rule (propagating its
error); then the am/pm and timezone tail runs. -/
def parseClockMinute (b : buffer) (spec : Timespec) : PRes :=
  let (c3, b4) := peek b
  if c3 = 0 then (some .clockEOF, spec, b4)
  else
    match (if isdigit c3 ∨ c3 = 58 then parseMinute b4 spec
           else (none, spec, b4)) with
    | (some e, sp, b5) => (some e, sp, b5)
    | (none, sp, b5) => parseClockTail b5 sp

/-- `parseClock` from the source: one or two digits of hour (value at most
23), then the minute, am/pm and timezone steps (`parseClockMinute`,
`parseClockTail`). -/
def parseClock (b : buffer) (spec : Timespec) : PRes :=
  let (c1, _, b1) := readByte b
  let (c2, _, b2) := readByte b1
  let (buf, b3) :=
    if c2 ≠ 0 then
      if isdigit c2 then ([c1, c2], b2)
      else ([c1], (skip (unreadByte b2) isspace).2)
    else ([c1], b2)
  match atoi buf with
  | none => (some (.clockInvalidNumber buf), spec, b3)
  | some hours =>
    if hours > 23 then (some (.invalidHours hours), spec, b3)
    else parseClockMinute b3 {spec with hours := hours}

/-- `parseTime` from the source: a digit starts a clock time, `n` the literal
"noon", `m` the literal "midnight". -/
def parseTime (b : buffer) (spec : Timespec) : PRes :=
  let (c, b1) := peek b
  if isdigit c then parseClock b1 spec
  else if c = 110 then parseNoon b1 spec
  else if c = 109 then parseMidnight b1 spec
  else (some (.timeUnexpectedChar c), spec, b1)

/-- The driver's reaction to a failed `parseDate`: the date fields are reset
to their defaults and the failure is dropped. -/
def dateReset (r : PRes) : Timespec :=
  if r.1.isSome then {r.2.1 with year := 0, month := 0, day := 0} else r.2.1

/-- The driver's reaction to a failed `parseincrement`: the increment count is
reset to 0 and the failure is dropped. -/
def incrReset (r : PRes) : Timespec :=
  if r.1.isSome then {r.2.1 with increments := 0} else r.2.1

/-- `parseTimespec` from the source: `now [increment]`, or time then date then
increment where a failing date resets the date fields and a failing increment
resets the count, neither being an error. -/
def parseTimespec (b : buffer) (spec : Timespec) : PRes :=
  let (c, b1) := peek b
  if c = 0 then (some .eofTimespec, spec, b1)
  else if c = 110 then
    match expectBytes b1 (strB "now") with
    | (actual, false, b2) => (some (.expectedNow actual), spec, b2)
    | (_, true, b2) => parseincrement b2 {spec with isNow := true}
  else
    match parseTime b1 spec with
    | (some e, sp, b2) => (some e, sp, b2)
    | (none, sp, b2) =>
      let r2 := parseDate b2 sp
      let r3 := parseincrement r2.2.2 (dateReset r2)
      (none, incrReset r3, r3.2.2)

/-- `ParseError` from the source: the string being parsed, the byte offset at
which the error occurred, and the error (the source formats it as a
message). -/
structure ParseError where
  Src : String
  Pos : Nat
  Msg : PErr
deriving DecidableEq, Repr

/-- `Parse` from the source: runs `parseTimespec` over a fresh buffer and a
zero `Timespec`. -/
def Parse (timespec : String) : Except ParseError Timespec :=
  let b : buffer := ⟨strB timespec, 0⟩
  match parseTimespec b {} with
  | (some e, _, b1) => .error ⟨timespec, b1.pos, e⟩
  | (none, spec, _) => .ok spec

/-- `fromTime` from the source: copy the reference instant's date and clock
into the spec. -/
structure GoTime where
  year : Int
  month : Int
  day : Int
  hours : Int
  minutes : Int
  seconds : Int
deriving DecidableEq, Repr

/-- `(d *Timespec).fromTime`: copies `t.Date()` and `t.Clock()`. -/
def fromTime (d : Timespec) (t : GoTime) : Timespec :=
  {d with year := t.year, month := t.month, day := t.day,
          hours := t.hours, minutes := t.minutes, seconds := t.seconds}

/-- `addincrement` from the source: adds the increment count to the field
selected by the unit (a week is seven days). -/
def addincrement (d : Timespec) : Timespec :=
  match d.unit with
  | .incrementMinutes => {d with minutes := d.minutes + d.increments}
  | .incrementHours => {d with hours := d.hours + d.increments}
  | .incrementDays => {d with day := d.day + d.increments}
  | .incrementWeeks => {d with day := d.day + 7 * d.increments}
  | .incrementMonths => {d with month := d.month + d.increments}
  | .incrementYears => {d with year := d.year + d.increments}

/-- Year-block part of the proleptic-Gregorian day count: for `v` the
(possibly March-shifted) year, the days contributed by whole 400-year eras and
the years of the current era, leap days included. -/
def gval (v : Int) : Int :=
  v / 400 * 146097 + v % 400 * 365 + v % 400 / 4 - v % 400 / 100

/-- Day-of-year offset of the first of month `m` (m in 1..12) in the
March-based reckoning of the civil-from-days algorithm. -/
def doyc (m : Int) : Int :=
  (153 * (if 2 < m then m - 3 else m + 9) + 2) / 5

/-- Days since 1970-01-01 of the first day of month `m` (1..12) of year `y`
in the proleptic Gregorian calendar. -/
def civilDays (y m : Int) : Int :=
  gval (if m ≤ 2 then y - 1 else y) + doyc m - 719468

/-- Models Go's `time.Date(year, month, day, hh, mm, ss, 0, time.UTC).Unix()`:
the month is folded into the year by floor division (exactly the
normalization `time.Date` performs), the day is counted linearly from the
first of the normalized month, and hours, minutes and seconds are added
linearly — out-of-range values of any of these fields roll over through the
calendar, as in Go. -/
def timeDate (year month day hh mi ss : Int) : Int :=
  let t := 12 * year + (month - 1)
  (civilDays (t / 12) (t % 12 + 1) + (day - 1)) * 86400
    + hh * 3600 + mi * 60 + ss

/-- The first-of-month day count as a function of the total month count
`t = 12*year + (month - 1)` — exactly how `timeDate` consumes year and
month. -/
def civilOfMonths (t : Int) : Int := civilDays (t / 12) (t % 12 + 1)

/-- `Resolve` from the source; the Go method mutates its receiver and returns
a `time.Time`, so the embedding returns the mutated spec together with the
resulting instant as Unix seconds. -/
def Resolve (d : Timespec) (now : GoTime) : Timespec × Int :=
  let d1 := if d.isNow then fromTime d now else d
  let d2 := if d1.isTomorrow then {d1 with day := d1.day + 1} else d1
  let d3 := addincrement d2
  (d3, timeDate d3.year d3.month d3.day d3.hours d3.minutes d3.seconds)

/-- C1: the spec claims every well-formed clock string "H", "HH", "H:MM",
"HH:MM" (0 ≤ H ≤ 23, 0 ≤ MM ≤ 59) parses with exactly those hours and
minutes.  The "H:MM"/"HH:MM" shapes do behave as claimed, but a bare one- or
two-digit hour at end of input is rejected: after storing the hour,
`parseClock` peeks and fails with "clock: unexpected EOF", contradicting the
package's own documented grammar (`timespec : time`, where a one- or
two-digit `hr24clock_hour` is a time). -/
theorem parse_bare_hour_eof_bug :
    Parse "14" = .error ⟨"14", 1, .clockEOF⟩ ∧
    Parse "5" = .error ⟨"5", 0, .clockEOF⟩ ∧
    Parse "14:05" = .ok {hours := 14, minutes := 5} ∧
    Parse "9:59" = .ok {hours := 9, minutes := 59} ∧
    Parse "0:00" = .ok {hours := 0, minutes := 0} ∧
    Parse "23:59" = .ok {hours := 23, minutes := 59} :=
  ⟨rfl, rfl, rfl, rfl, rfl, rfl⟩

/-- C2: the spec claims `Parse "noon"` succeeds with hours 12.  It does not:
`parseTimespec` sees the leading 'n' and demands the literal "now", so
`Parse "noon"` fails with `expected "now", got "noo"` — the `parseNoon` rule
(which does set hour 12, as the direct call shows) is unreachable from
`Parse` for this input.  `Parse "midnight"` succeeds with hours = minutes = 0
as claimed. -/
theorem parse_noon_unreachable_bug :
    Parse "noon" = .error ⟨"noon", 2, .expectedNow (strB "noo")⟩ ∧
    Parse "midnight" = .ok {} ∧
    (parseTime ⟨strB "noon", 0⟩ {}).1 = none ∧
    (parseTime ⟨strB "noon", 0⟩ {}).2.1.hours = 12 :=
  ⟨rfl, rfl, rfl, rfl⟩

/-- C4: resolving an `isNow` spec copies the reference instant's fields and
then adds the increment with calendar normalization.  The right-hand sides
are the Unix seconds of the claimed instants: 1262445000 = 2010-01-02T15:10Z,
1265382600 = 2010-02-05T15:10Z, 1265037000 = 2010-02-01T15:10Z,
1388589000 = 2014-01-01T15:10Z, 1262952000 = 2010-01-08T12:00Z. -/
theorem resolve_now_increment_vectors :
    (Resolve {isNow := true, increments := 1, unit := .incrementDays}
      ⟨2010, 1, 1, 15, 10, 0⟩).2 = 1262445000 ∧
    (Resolve {isNow := true, increments := 5, unit := .incrementWeeks}
      ⟨2010, 1, 1, 15, 10, 0⟩).2 = 1265382600 ∧
    (Resolve {isNow := true, increments := 1, unit := .incrementMonths}
      ⟨2010, 1, 1, 15, 10, 0⟩).2 = 1265037000 ∧
    (Resolve {isNow := true, increments := 4, unit := .incrementYears}
      ⟨2010, 1, 1, 15, 10, 0⟩).2 = 1388589000 ∧
    Parse "now next week" = .ok {isNow := true, increments := 1,
                                 unit := .incrementWeeks} ∧
    (Resolve {isNow := true, increments := 1, unit := .incrementWeeks}
      ⟨2010, 1, 1, 12, 0, 0⟩).2 = 1262952000 :=
  ⟨rfl, rfl, rfl, rfl, rfl, rfl⟩

/-- C9: a weekday-name date stores the 0-based weekday index in `day`, so
"Mon"/"Monday" (index 0) produce exactly the all-zero date fields that
"today" produces; through `Parse` the two inputs give equal `Timespec`s, and
`Resolve` cannot distinguish them. -/
theorem weekday_monday_equals_today :
    findDayOfWeek (strB "Mon") = 0 ∧
    findDayOfWeek (strB "Monday") = 0 ∧
    (parseDate ⟨strB "Monday", 0⟩ {}).2.1 = ({} : Timespec) ∧
    (parseDate ⟨strB "today", 0⟩ {}).2.1 = ({} : Timespec) ∧
    Parse "14:00 Monday" = Parse "14:00 today" ∧
    Parse "14:00 Mon" = Parse "14:00 today" ∧
    ∀ now : GoTime,
      Resolve ((parseDate ⟨strB "Monday", 0⟩ {}).2.1) now =
      Resolve ((parseDate ⟨strB "today", 0⟩ {}).2.1) now :=
  ⟨rfl, rfl, rfl, rfl, rfl, rfl, fun _ => rfl⟩

/-- C8: a spec that is not "now", not "tomorrow" and has increment count 0
resolves to the same result whatever the reference instant is: `Resolve`
never reads the reference on that path. -/
theorem resolve_ignores_reference (d : Timespec) (t1 t2 : GoTime)
    (h1 : d.isNow = false) (h2 : d.isTomorrow = false)
    (h3 : d.increments = 0) :
    Resolve d t1 = Resolve d t2 := by
  simp [Resolve, h1, h2]

/-- Witness for `resolve_ignores_reference` at a concrete spec and two
distinct reference instants. -/
theorem resolve_ignores_reference_witness :
    Resolve {month := 3, day := 11, year := 2010, hours := 13} ⟨2000, 1, 1, 0, 0, 0⟩ =
    Resolve {month := 3, day := 11, year := 2010, hours := 13} ⟨2020, 6, 15, 3, 4, 5⟩ :=
  resolve_ignores_reference _ _ _ rfl rfl rfl

/-- C5 counterexample: "Febx" is neither a month's canonical name nor its
abbreviation, yet the table lookup succeeds (index 2): `regexp.Match` is
unanchored, so `Feb(ruary)?` matches any token containing "Feb". -/
theorem findMonth_accepts_non_name :
    findMonth (strB "Febx") = 2 ∧
    ¬(strB "Febx" = strB "Feb" ∨ strB "Febx" = strB "February") := by
  exact ⟨rfl, by decide⟩

/-- C6 counterexample: after the time segment, a token starting with 'U'
whose three bytes do not spell "UTC" does NOT make `Parse` fail: the
`InvalidTimezone` error `parseTimeZone` produces is discarded by
`parseClock`, and the whole input parses successfully. -/
theorem parse_swallows_timezone_error :
    Parse "12:10 UXX" = .ok {hours := 12, minutes := 10} :=
  rfl

/-- C7 counterexample: in a month-name date with a comma, three digits of
year are accepted: `parseYear` ignores the result of `expectN 4` and records
the value of the digits it did collect, so "Dec 24, 123" succeeds with
year = 123 instead of failing with `InvalidYear`. -/
theorem parseYear_accepts_short_year :
    (parseDate ⟨strB "Dec 24, 123", 0⟩ {}).1 = none ∧
    (parseDate ⟨strB "Dec 24, 123", 0⟩ {}).2.1.year = 123 :=
  ⟨rfl, rfl⟩

/-- `parseincrementPeriod` never touches the date fields. -/
theorem parseincrementPeriod_date (b : buffer) (sp : Timespec) :
    (parseincrementPeriod b sp).2.1.year = sp.year ∧
    (parseincrementPeriod b sp).2.1.month = sp.month ∧
    (parseincrementPeriod b sp).2.1.day = sp.day := by
  unfold parseincrementPeriod
  repeat' split
  all_goals dsimp only
  all_goals split_ifs <;> simp

/-- `parseincrement` never touches the date fields: it only writes
`increments` and `unit`. -/
theorem parseincrement_date (b : buffer) (sp : Timespec) :
    (parseincrement b sp).2.1.year = sp.year ∧
    (parseincrement b sp).2.1.month = sp.month ∧
    (parseincrement b sp).2.1.day = sp.day := by
  unfold parseincrement
  repeat' split
  all_goals first
    | simp
    | exact parseincrementPeriod_date _ _

/-- `incrReset` keeps the date fields of the spec inside the result. -/
theorem incrReset_date (r : PRes) :
    (incrReset r).year = r.2.1.year ∧ (incrReset r).month = r.2.1.month ∧
    (incrReset r).day = r.2.1.day := by
  unfold incrReset
  split <;> simp

/-- C3 (amended): the downgrade policy holds on the time-date path — once
the time segment has parsed (the non-"now" branch), `parseTimespec` never
fails: a failing `parseDate` is downgraded to "no date" with the date fields
reset to their defaults, and a failing `parseincrement` is downgraded to
"no increment" with the count reset to 0.  (After "now" the increment's
failure propagates instead; see the counterexample.) -/
theorem date_increment_soft_fallback (b : buffer) (sp : Timespec)
    (h0 : (peek b).1 ≠ 0) (h1 : (peek b).1 ≠ 110)
    (h2 : (parseTime (peek b).2 sp).1 = none) :
    (parseTimespec b sp).1 = none ∧
    (∀ e, (parseDate (parseTime (peek b).2 sp).2.2
             (parseTime (peek b).2 sp).2.1).1 = some e →
       (parseTimespec b sp).2.1.year = 0 ∧
       (parseTimespec b sp).2.1.month = 0 ∧
       (parseTimespec b sp).2.1.day = 0) ∧
    (∀ e, (parseincrement
             (parseDate (parseTime (peek b).2 sp).2.2
               (parseTime (peek b).2 sp).2.1).2.2
             (dateReset (parseDate (parseTime (peek b).2 sp).2.2
               (parseTime (peek b).2 sp).2.1))).1 = some e →
       (parseTimespec b sp).2.1.increments = 0) := by
  rcases hp : peek b with ⟨c, b1⟩
  rw [hp] at h0 h1 h2
  simp only [hp]
  dsimp only at h0 h1 h2 ⊢
  rcases hq : parseTime b1 sp with ⟨eo, sp2, b2⟩
  rw [hq] at h2
  simp only [hq]
  dsimp only at h2 ⊢
  subst h2
  have hps : parseTimespec b sp =
      (none,
       incrReset (parseincrement (parseDate b2 sp2).2.2
         (dateReset (parseDate b2 sp2))),
       (parseincrement (parseDate b2 sp2).2.2
         (dateReset (parseDate b2 sp2))).2.2) := by
    unfold parseTimespec
    rw [hp]
    simp [h0, h1, hq]
  refine ⟨by rw [hps], ?_, ?_⟩
  · intro e he
    have hd : dateReset (parseDate b2 sp2) =
        {(parseDate b2 sp2).2.1 with year := 0, month := 0, day := 0} := by
      unfold dateReset
      rw [he]
      simp
    rw [hps]
    dsimp only
    have h3 := incrReset_date (parseincrement (parseDate b2 sp2).2.2
      (dateReset (parseDate b2 sp2)))
    have h4 := parseincrement_date (parseDate b2 sp2).2.2
      (dateReset (parseDate b2 sp2))
    rw [h3.1, h3.2.1, h3.2.2, h4.1, h4.2.1, h4.2.2, hd]
    exact ⟨rfl, rfl, rfl⟩
  · intro e he
    rw [hps]
    dsimp only [incrReset]
    rw [he]
    simp

/-- C3 counterexample: the downgrade policy does NOT hold for every input —
in the "now" branch, `parseTimespec` returns `parseincrement`'s result
directly, so a malformed increment segment after "now" makes `Parse` fail
("now +": empty digit run; "now x": neither "next" nor '+'), while a wholly
absent increment ("now") and a well-formed one ("now + 1 day") succeed. -/
theorem parse_now_increment_error_propagates :
    Parse "now +" = .error ⟨"now +", 5, .incrInvalidCount⟩ ∧
    Parse "now x" = .error ⟨"now x", 5, .expectedPlus 120⟩ ∧
    Parse "now" = .ok {isNow := true} ∧
    Parse "now + 1 day" = .ok {isNow := true, increments := 1,
                               unit := .incrementDays} :=
  ⟨rfl, rfl, rfl, rfl⟩

/-- Witness for `date_increment_soft_fallback` on "14:00 Nov +2 bogus", an
input whose date segment ("Nov" with no day digits) and increment segment
(period "bogus") both fail and are both downgraded. -/
theorem date_increment_soft_fallback_witness :
    (parseTimespec ⟨strB "14:00 Nov +2 bogus", 0⟩ {}).1 = none ∧
    (∀ e, (parseDate (parseTime (peek ⟨strB "14:00 Nov +2 bogus", 0⟩).2 {}).2.2
             (parseTime (peek ⟨strB "14:00 Nov +2 bogus", 0⟩).2 {}).2.1).1 = some e →
       (parseTimespec ⟨strB "14:00 Nov +2 bogus", 0⟩ {}).2.1.year = 0 ∧
       (parseTimespec ⟨strB "14:00 Nov +2 bogus", 0⟩ {}).2.1.month = 0 ∧
       (parseTimespec ⟨strB "14:00 Nov +2 bogus", 0⟩ {}).2.1.day = 0) ∧
    (∀ e, (parseincrement
             (parseDate (parseTime (peek ⟨strB "14:00 Nov +2 bogus", 0⟩).2 {}).2.2
               (parseTime (peek ⟨strB "14:00 Nov +2 bogus", 0⟩).2 {}).2.1).2.2
             (dateReset (parseDate (parseTime (peek ⟨strB "14:00 Nov +2 bogus", 0⟩).2 {}).2.2
               (parseTime (peek ⟨strB "14:00 Nov +2 bogus", 0⟩).2 {}).2.1))).1 = some e →
       (parseTimespec ⟨strB "14:00 Nov +2 bogus", 0⟩ {}).2.1.increments = 0) :=
  date_increment_soft_fallback ⟨strB "14:00 Nov +2 bogus", 0⟩ {}
    (by decide) (by decide) (by decide)

/-- `leadsWith p s` holds exactly when `p` is a prefix of `s`. -/
theorem leadsWith_iff (p : List GoByte) : ∀ s : List GoByte,
    leadsWith p s = true ↔ ∃ r, s = p ++ r := by
  induction p with
  | nil => intro s; simp [leadsWith]
  | cons a p ih =>
    intro s
    cases s with
    | nil => simp [leadsWith]
    | cons c t =>
      simp only [leadsWith, Bool.and_eq_true, decide_eq_true_eq, ih,
        List.cons_append, List.cons.injEq]
      constructor
      · rintro ⟨rfl, r, rfl⟩
        exact ⟨r, rfl, rfl⟩
      · rintro ⟨r, rfl, rfl⟩
        exact ⟨rfl, r, rfl⟩

/-- `containsSeq p s` holds exactly when `p` occurs contiguously inside
`s`. -/
theorem containsSeq_iff (p : List GoByte) : ∀ s : List GoByte,
    containsSeq p s = true ↔ ∃ l r, s = l ++ (p ++ r) := by
  intro s
  induction s with
  | nil =>
    simp only [containsSeq, leadsWith_iff]
    constructor
    · rintro ⟨r, hr⟩
      exact ⟨[], r, hr⟩
    · rintro ⟨l, r, hr⟩
      exact ⟨r, by rcases l <;> simp_all⟩
  | cons c t ih =>
    simp only [containsSeq, Bool.or_eq_true, leadsWith_iff, ih]
    constructor
    · rintro (⟨r, hr⟩ | ⟨l, r, hr⟩)
      · exact ⟨[], r, by simp [hr]⟩
      · exact ⟨c :: l, r, by simp [hr]⟩
    · rintro ⟨l, r, hr⟩
      cases l with
      | nil => exact Or.inl ⟨r, by simpa using hr⟩
      | cons x l' =>
        right
        simp only [List.cons_append, List.cons.injEq] at hr
        exact ⟨l', r, hr.2⟩

/-- The indexed loop of `findInRegexpList` returns `i` plus the first
matching index, or -1. -/
theorem findInRegexpListAux_spec (buf : List GoByte) :
    ∀ (tbl : List (List GoByte)) (i : Int),
    findInRegexpListAux tbl buf i =
      (match tbl.findIdx? (fun p => containsSeq p buf) with
       | some j => i + (j : Int)
       | none => -1) := by
  intro tbl
  induction tbl with
  | nil => intro i; simp [findInRegexpListAux]
  | cons re rest ih =>
    intro i
    by_cases h : containsSeq re buf
    · simp [findInRegexpListAux, h]
    · simp only [findInRegexpListAux, h, Bool.false_eq_true, if_false,
        ih (i + 1), List.findIdx?_cons, List.findIdx?_succ]
      cases hfi : rest.findIdx? (fun p => containsSeq p buf) with
      | none => simp [hfi]
      | some j =>
        simp only [hfi, Option.map_some', Int.ofNat_eq_natCast]
        push_cast
        ring

/-- C5 (amended): table matching is substring matching.  `containsSeq`
characterizes Go's unanchored `regexp.Match` of a `Stem(rest)?` pattern:
it holds exactly when the token CONTAINS the stem as a contiguous substring
(so exact names and abbreviations are accepted, but so is any token
containing them — see the counterexample); a successful lookup returns the
first matching index in table order, and the exact canonical names and
abbreviations match at their own table position. -/
theorem findInRegexpList_substring_semantics :
    (∀ p s : List GoByte, containsSeq p s = true ↔ ∃ l r, s = l ++ (p ++ r)) ∧
    (∀ (tbl : List (List GoByte)) (buf : List GoByte),
      findInRegexpList tbl buf =
        (match tbl.findIdx? (fun p => containsSeq p buf) with
         | some j => (j : Int)
         | none => -1)) ∧
    findMonth (strB "Jan") = 1 ∧ findMonth (strB "January") = 1 ∧
    findMonth (strB "Feb") = 2 ∧ findMonth (strB "February") = 2 ∧
    findMonth (strB "Dec") = 12 ∧ findMonth (strB "December") = 12 ∧
    findMonth (strB "xyz") = -1 ∧
    findDayOfWeek (strB "Tue") = 1 ∧ findDayOfWeek (strB "Tuesday") = 1 ∧
    findDayOfWeek (strB "Sunday") = 6 ∧ findDayOfWeek (strB "February") = -1 ∧
    findPeriod (strB "minute") = 0 ∧ findPeriod (strB "minutes") = 0 ∧
    findPeriod (strB "week") = 3 ∧ findPeriod (strB "weeks") = 3 ∧
    findPeriod (strB "year") = 5 ∧ findPeriod (strB "nonsense") = -1 := by
  refine ⟨containsSeq_iff, ?_, ?_, ?_, ?_, ?_, ?_, ?_, ?_, ?_, ?_, ?_, ?_,
    ?_, ?_, ?_, ?_, ?_, ?_⟩
  · intro tbl buf
    rw [findInRegexpList, findInRegexpListAux_spec]
    cases tbl.findIdx? (fun p => containsSeq p buf) <;> simp
  all_goals rfl

/-- `parseMinute` never produces a timezone error. -/
theorem parseMinute_no_tz (b : buffer) (sp : Timespec) :
    ∀ e, (parseMinute b sp).1 = some e → e.isTimezone = false := by
  intro e he
  unfold parseMinute at he
  dsimp only at he
  repeat' split at he
  all_goals simp_all [PErr.isTimezone]
  all_goals try (subst he; rfl)

/-- `parseAmPm` never produces a timezone error. -/
theorem parseAmPm_no_tz (b : buffer) (sp : Timespec) :
    ∀ e, (parseAmPm b sp).1 = some e → e.isTimezone = false := by
  intro e he
  unfold parseAmPm at he
  dsimp only at he
  repeat' split at he
  all_goals simp_all [PErr.isTimezone]
  all_goals try (subst he; rfl)

/-- `parseNoon` never produces a timezone error. -/
theorem parseNoon_no_tz (b : buffer) (sp : Timespec) :
    ∀ e, (parseNoon b sp).1 = some e → e.isTimezone = false := by
  intro e he
  unfold parseNoon at he
  repeat' split at he
  all_goals simp_all [PErr.isTimezone]
  all_goals try (subst he; rfl)

/-- `parseMidnight` never produces a timezone error. -/
theorem parseMidnight_no_tz (b : buffer) (sp : Timespec) :
    ∀ e, (parseMidnight b sp).1 = some e → e.isTimezone = false := by
  intro e he
  unfold parseMidnight at he
  repeat' split at he
  all_goals simp_all [PErr.isTimezone]
  all_goals try (subst he; rfl)

/-- `parseClockTail` never produces a timezone error: the only error it can
propagate is an am/pm failure, and the `parseTimeZone` result is
discarded. -/
theorem parseClockTail_no_tz (b : buffer) (sp : Timespec) :
    ∀ e, (parseClockTail b sp).1 = some e → e.isTimezone = false := by
  intro e he
  unfold parseClockTail at he
  rcases hs : skip b isspace with ⟨c4, b6⟩
  rw [hs] at he
  dsimp only at he
  by_cases hc : c4 ≠ 0 ∧ (c4 = 97 ∨ c4 = 65 ∨ c4 = 112 ∨ c4 = 80)
  · rw [if_pos hc] at he
    rcases ha : parseAmPm b6 sp with ⟨ea, spa, ba⟩
    rw [ha] at he
    cases ea with
    | some a =>
      dsimp only at he
      cases he
      exact parseAmPm_no_tz _ _ _ (by rw [ha])
    | none =>
      dsimp only at he
      simp at he
  · rw [if_neg hc] at he
    dsimp only at he
    simp at he

/-- `parseClockMinute` never produces a timezone error. -/
theorem parseClockMinute_no_tz (b : buffer) (sp : Timespec) :
    ∀ e, (parseClockMinute b sp).1 = some e → e.isTimezone = false := by
  intro e he
  unfold parseClockMinute at he
  rcases hp : peek b with ⟨c3, b4⟩
  rw [hp] at he
  dsimp only at he
  by_cases hc0 : c3 = 0
  · rw [if_pos hc0] at he
    cases he
    rfl
  · rw [if_neg hc0] at he
    by_cases hcd : isdigit c3 = true ∨ c3 = 58
    · rw [if_pos hcd] at he
      rcases hm : parseMinute b4 sp with ⟨em, spm, bm⟩
      rw [hm] at he
      cases em with
      | some a =>
        dsimp only at he
        cases he
        exact parseMinute_no_tz _ _ _ (by rw [hm])
      | none =>
        dsimp only at he
        exact parseClockTail_no_tz _ _ _ he
    · rw [if_neg hcd] at he
      dsimp only at he
      exact parseClockTail_no_tz _ _ _ he

section
set_option maxHeartbeats 1600000

/-- `parseClock` never produces a timezone error: its own failures are hour
failures or those of the minute and am/pm steps. -/
theorem parseClock_no_tz (b : buffer) (sp : Timespec) :
    ∀ e, (parseClock b sp).1 = some e → e.isTimezone = false := by
  intro e he
  unfold parseClock at he
  dsimp only at he
  repeat' split at he
  all_goals try exact parseClockMinute_no_tz _ _ _ he
  all_goals simp_all [PErr.isTimezone]
  all_goals try (subst he; rfl)

end

/-- `parseTime` never produces a timezone error. -/
theorem parseTime_no_tz (b : buffer) (sp : Timespec) :
    ∀ e, (parseTime b sp).1 = some e → e.isTimezone = false := by
  intro e he
  unfold parseTime at he
  dsimp only at he
  repeat' split at he
  · exact parseClock_no_tz _ _ _ he
  · exact parseNoon_no_tz _ _ _ he
  · exact parseMidnight_no_tz _ _ _ he
  · simp_all [PErr.isTimezone]
    try (subst he; rfl)

/-- `parseincrementPeriod` never produces a timezone error. -/
theorem parseincrementPeriod_no_tz (b : buffer) (sp : Timespec) :
    ∀ e, (parseincrementPeriod b sp).1 = some e → e.isTimezone = false := by
  intro e he
  unfold parseincrementPeriod at he
  dsimp only at he
  repeat' split at he
  all_goals simp_all [PErr.isTimezone]
  all_goals try (subst he; rfl)

/-- `parseincrement` never produces a timezone error. -/
theorem parseincrement_no_tz (b : buffer) (sp : Timespec) :
    ∀ e, (parseincrement b sp).1 = some e → e.isTimezone = false := by
  intro e he
  unfold parseincrement at he
  dsimp only at he
  repeat' split at he
  all_goals first
    | exact parseincrementPeriod_no_tz _ _ _ he
    | simp_all [PErr.isTimezone]
  all_goals try (subst he; rfl)

/-- `parseTimespec` never produces a timezone error. -/
theorem parseTimespec_no_tz (b : buffer) (sp : Timespec) :
    ∀ e, (parseTimespec b sp).1 = some e → e.isTimezone = false := by
  intro e he
  unfold parseTimespec at he
  rcases hp : peek b with ⟨c, b1⟩
  rw [hp] at he
  dsimp only at he
  by_cases hc0 : c = 0
  · rw [if_pos hc0] at he
    cases he
    rfl
  · rw [if_neg hc0] at he
    by_cases hcn : c = 110
    · rw [if_pos hcn] at he
      rcases hx : expectBytes b1 (strB "now") with ⟨actual, ok, b2⟩
      rw [hx] at he
      cases ok with
      | false =>
        dsimp only at he
        cases he
        rfl
      | true =>
        dsimp only at he
        exact parseincrement_no_tz _ _ _ he
    · rw [if_neg hcn] at he
      rcases ht : parseTime b1 sp with ⟨et, spt, bt⟩
      rw [ht] at he
      cases et with
      | some a =>
        dsimp only at he
        cases he
        exact parseTime_no_tz _ _ _ (by rw [ht])
      | none =>
        dsimp only at he
        simp at he

/-- C6 (amended): `parseTimeZone` does fail with an `InvalidTimezone` error on
a token starting with 'u'/'U' whose three bytes do not spell "UTC", but
`parseClock` discards that result, so no `Parse` error is ever a timezone
error — the whole input still parses (the invalid token having been
consumed, later optional segments fail softly). -/
theorem parse_never_timezone_error :
    (∀ (s : String) (pe : ParseError),
       Parse s = .error pe → pe.Msg.isTimezone = false) ∧
    (parseTimeZone ⟨strB " UXX", 0⟩ {}).1 = some (.invalidTimezone (strB "UXX")) ∧
    (parseTimeZone ⟨strB " utcx", 0⟩ {}).1 = none ∧
    (Parse "12:10 UXX").isOk = true := by
  refine ⟨?_, rfl, rfl, rfl⟩
  intro s pe h
  unfold Parse at h
  dsimp only at h
  split at h
  · rename_i e1 rest b1 heq
    cases h
    exact parseTimespec_no_tz _ _ _ (by rw [heq])
  · cases h

/-- C7 (amended): after the comma of a month-name date, `parseYear` attempts
four digits but ignores whether all four were present: whenever at least one
digit follows (whatever the spec parsed so far), it succeeds and records the
value of the digits it collected — possibly a year of fewer than four
digits; it fails with the `InvalidYear` error only when no digit at all
follows the comma. -/
theorem parseYear_short_year_semantics :
    (∀ sp : Timespec, parseYear ⟨strB " 123", 0⟩ sp =
       (none, {sp with year := 123}, ⟨strB " 123", 3⟩)) ∧
    (∀ sp : Timespec, parseYear ⟨strB " 12", 0⟩ sp =
       (none, {sp with year := 12}, ⟨strB " 12", 2⟩)) ∧
    (∀ sp : Timespec, parseYear ⟨strB " 7", 0⟩ sp =
       (none, {sp with year := 7}, ⟨strB " 7", 1⟩)) ∧
    (∀ sp : Timespec, parseYear ⟨strB " 2015", 0⟩ sp =
       (none, {sp with year := 2015}, ⟨strB " 2015", 5⟩)) ∧
    (∀ sp : Timespec, parseYear ⟨strB " x", 0⟩ sp =
       (some (.invalidYearFormat []), sp, ⟨strB " x", 1⟩)) ∧
    (parseDate ⟨strB "Dec 24, 2015", 0⟩ {}).2.1.year = 2015 :=
  ⟨fun _ => rfl, fun _ => rfl, fun _ => rfl, fun _ => rfl, fun _ => rfl, rfl⟩
/-- Each year block contributes at least 365 days. -/
theorem gval_step (v : Int) : gval v + 365 ≤ gval (v + 1) := by
  unfold gval
  omega

/-- `gval_step` with the successor given explicitly. -/
theorem gval_step' (a b : Int) (h : b = a + 1) : gval a + 365 ≤ gval b := by
  subst h
  exact gval_step a

/-- Within a year, the first of the next month is strictly later. -/
theorem civilDays_month_step (y m : Int) (h1 : 1 ≤ m) (h2 : m ≤ 11) :
    civilDays y m < civilDays y (m + 1) := by
  have hg : gval (y - 1) + 365 ≤ gval y := gval_step' (y - 1) y (by ring)
  unfold civilDays doyc
  split_ifs <;> omega

/-- January 1 of the next year is strictly later than December 1. -/
theorem civilDays_dec_jan (y : Int) : civilDays y 12 < civilDays (y + 1) 1 := by
  have hy : y + 1 - 1 = y := by ring
  unfold civilDays doyc
  norm_num [hy]

/-- One more total month moves the first-of-month day count strictly
forward. -/
theorem civilOfMonths_step (t : Int) : civilOfMonths t < civilOfMonths (t + 1) := by
  obtain ⟨q, r, rfl, hr0, hr12⟩ : ∃ q r, t = 12 * q + r ∧ 0 ≤ r ∧ r < 12 :=
    ⟨t / 12, t % 12, by omega, by omega, by omega⟩
  have e1 : (12 * q + r) / 12 = q := by omega
  have e2 : (12 * q + r) % 12 = r := by omega
  by_cases hr : r = 11
  · have d3 : (12 * q + r + 1) / 12 = q + 1 := by omega
    have d4 : (12 * q + r + 1) % 12 = 0 := by omega
    unfold civilOfMonths
    rw [e1, e2, d3, d4, hr]
    simpa using civilDays_dec_jan q
  · have d3 : (12 * q + r + 1) / 12 = q := by omega
    have d4 : (12 * q + r + 1) % 12 = r + 1 := by omega
    unfold civilOfMonths
    rw [e1, e2, d3, d4]
    exact civilDays_month_step q (r + 1) (by omega) (by omega)

/-- Strict monotonicity of the first-of-month day count over any positive
number of months. -/
theorem civilOfMonths_lt (k : Nat) : ∀ t : Int,
    civilOfMonths t < civilOfMonths (t + 1 + k) := by
  induction k with
  | zero => intro t; simpa using civilOfMonths_step t
  | succ n ih =>
    intro t
    have h1 := ih t
    have h2 := civilOfMonths_step (t + 1 + n)
    have h3 : t + 1 + ((n + 1 : Nat) : Int) = t + 1 + n + 1 := by push_cast; ring
    rw [h3]
    exact lt_trans h1 h2

/-- Strict monotonicity of the first-of-month day count. -/
theorem civilOfMonths_mono (t u : Int) (h : t < u) :
    civilOfMonths t < civilOfMonths u := by
  have e : u = t + 1 + ((u - t - 1).toNat : Int) := by omega
  rw [e]
  exact civilOfMonths_lt _ t

/-- Weak monotonicity of the first-of-month day count. -/
theorem civilOfMonths_le (t u : Int) (h : t ≤ u) :
    civilOfMonths t ≤ civilOfMonths u := by
  rcases eq_or_lt_of_le h with rfl | hlt
  · exact le_refl _
  · exact le_of_lt (civilOfMonths_mono t u hlt)

/-- `timeDate` through `civilOfMonths`: the year and month enter only through
the total month count `12*year + (month - 1)`. -/
theorem timeDate_eq (year month day hh mi ss : Int) :
    timeDate year month day hh mi ss =
      (civilOfMonths (12 * year + (month - 1)) + (day - 1)) * 86400
        + hh * 3600 + mi * 60 + ss := rfl

/-- A nonnegative shift of the calendar fields with at least one positive
component moves the resulting instant strictly forward. -/
theorem timeDate_shift_pos (y mo d hh mi ss dy dmo dd dhh dmi : Int)
    (h1 : 0 ≤ dy) (h2 : 0 ≤ dmo) (h3 : 0 ≤ dd) (h4 : 0 ≤ dhh) (h5 : 0 ≤ dmi)
    (hpos : 0 < 12 * dy + dmo ∨ 0 < dd ∨ 0 < dhh ∨ 0 < dmi) :
    timeDate y mo d hh mi ss <
      timeDate (y + dy) (mo + dmo) (d + dd) (hh + dhh) (mi + dmi) ss := by
  rw [timeDate_eq, timeDate_eq]
  have harg : 12 * (y + dy) + (mo + dmo - 1) =
      (12 * y + (mo - 1)) + (12 * dy + dmo) := by ring
  rw [harg]
  have hle : civilOfMonths (12 * y + (mo - 1)) ≤
      civilOfMonths (12 * y + (mo - 1) + (12 * dy + dmo)) :=
    civilOfMonths_le _ _ (by omega)
  rcases hpos with hp | hp | hp | hp
  · have hlt : civilOfMonths (12 * y + (mo - 1)) <
        civilOfMonths (12 * y + (mo - 1) + (12 * dy + dmo)) :=
      civilOfMonths_mono _ _ (by omega)
    nlinarith
  all_goals nlinarith

/-- A strict-shift comparison for `timeDate`, stated with inequalities on the
fields so it applies to any syntactic form of the shifted fields. -/
theorem timeDate_lt (y mo d hh mi ss y2 mo2 d2 hh2 mi2 : Int)
    (hT : 12 * y + (mo - 1) ≤ 12 * y2 + (mo2 - 1))
    (hd : d ≤ d2) (hhh : hh ≤ hh2) (hmi : mi ≤ mi2)
    (hstrict : 12 * y + mo < 12 * y2 + mo2 ∨ d < d2 ∨ hh < hh2 ∨ mi < mi2) :
    timeDate y mo d hh mi ss < timeDate y2 mo2 d2 hh2 mi2 ss := by
  rw [timeDate_eq, timeDate_eq]
  have hle := civilOfMonths_le _ _ hT
  rcases hstrict with hp | hp | hp | hp
  · have hlt := civilOfMonths_mono (12 * y + (mo - 1)) (12 * y2 + (mo2 - 1))
      (by omega)
    nlinarith
  all_goals nlinarith

/-- C10: `Resolve` folds "tomorrow" and the increment into the receiver and
returns the mutated spec, so a second call on the same (mutated) spec with
the same reference applies the offset again: with `isNow` clear, `isTomorrow`
set or a positive count (the count is non-negative in every parsed spec, per
the data model), the second timestamp is strictly later — the two calls
return different timestamps. -/
theorem resolve_second_call_strictly_later (d : Timespec) (t : GoTime)
    (h0 : 0 ≤ d.increments) (h1 : d.isNow = false)
    (h2 : d.isTomorrow = true ∨ 0 < d.increments) :
    (Resolve d t).2 < (Resolve (Resolve d t).1 t).2 ∧
    (Resolve d t).2 ≠ (Resolve (Resolve d t).1 t).2 := by
  have hlt : (Resolve d t).2 < (Resolve (Resolve d t).1 t).2 := by
    rcases h2 with htom | hinc
    · cases hu : d.unit <;>
        simp [Resolve, addincrement, h1, htom, hu] <;>
        (apply timeDate_lt <;> omega)
    · cases htom : d.isTomorrow <;> cases hu : d.unit <;>
        simp [Resolve, addincrement, h1, htom, hu] <;>
        (apply timeDate_lt <;> omega)
  exact ⟨hlt, ne_of_lt hlt⟩

/-- Witness for `resolve_second_call_strictly_later` on a parsed-shape spec
`+2 weeks` and the reference 2010-01-01T00:00:00Z. -/
theorem resolve_second_call_strictly_later_witness :
    (Resolve {increments := 2, unit := .incrementWeeks} ⟨2010, 1, 1, 0, 0, 0⟩).2 <
      (Resolve (Resolve {increments := 2, unit := .incrementWeeks}
        ⟨2010, 1, 1, 0, 0, 0⟩).1 ⟨2010, 1, 1, 0, 0, 0⟩).2 ∧
    (Resolve {increments := 2, unit := .incrementWeeks} ⟨2010, 1, 1, 0, 0, 0⟩).2 ≠
      (Resolve (Resolve {increments := 2, unit := .incrementWeeks}
        ⟨2010, 1, 1, 0, 0, 0⟩).1 ⟨2010, 1, 1, 0, 0, 0⟩).2 :=
  resolve_second_call_strictly_later {increments := 2, unit := .incrementWeeks}
    ⟨2010, 1, 1, 0, 0, 0⟩ (by decide) rfl (Or.inr (by decide))
